import Mathlib

/-!
Verification of the mne-python real-time epoching / EDF reader
specification against the repository's code, via a shallow embedding
in Lean 4.

The embedded code comes from:
* `mne/fiff/edf/edf.py` — `RawEDF.__init__`, `RawEDF._read_segment`,
  `_get_edf_info` (argument handling, 24-bit decoding, stimulus masking);
* `mne/realtime/classifier.py` — `Scaler.transform`,
  `ConcatenateChannels.fit/transform/fit_transform`;
* `mne/preprocessing/bads.py` — `find_outlier_adaptive`.

The real-time epoching core itself (`RtEpochs`: event detector, epoch
queue, epoch extractor) is only *called* from the example scripts in this
snapshot; those components are modelled from the spec (sections 4.2, 4.3,
4.5), as marked on each definition.
-/

namespace MneSpec

/-! ## Event Detector (spec section 4.2) -/

/-- Modelled from the spec: the Event Detector of section 4.2 (its
implementation, `mne.realtime.RtEpochs`, is not part of the source
snapshot; only its callers are). Scans the trigger-channel samples
keeping the last-seen value (initially the baseline 0); an index emits a
Trigger Event when its value is nonzero, on the equality allow-list, and
differs from the previous sample (debouncing: only the first sample of a
contiguous run of the same nonzero value emits; a direct transition
between two different nonzero codes is a new event). -/
def detectTriggersAux (allow : List Nat) : Nat → Nat → List Nat → List (Nat × Nat)
  | _, _, [] => []
  | i, prev, v :: rest =>
      (if v ≠ 0 ∧ v ≠ prev ∧ v ∈ allow then [(i, v)] else [])
        ++ detectTriggersAux allow (i + 1) v rest

/-- Modelled from the spec: run the Event Detector of section 4.2 from
the start of the trigger channel, with baseline last-seen value 0. -/
def detectTriggers (allow : List Nat) (xs : List Nat) : List (Nat × Nat) :=
  detectTriggersAux allow 0 0 xs

/-! ## Epoch Queue (spec section 4.5) -/

/-- Modelled from the spec: error taxonomy of section 7 relevant to the
Epoch Queue. -/
inductive QueueError
  | QueueFull
  | QueueEmpty
deriving DecidableEq, Repr

/-- Modelled from the spec: the bounded Epoch Queue of section 4.5
(its implementation lives in `mne.realtime`, not in the source
snapshot). `items` is in insertion order, oldest first. -/
structure EpochQueue (α : Type) where
  items : List α
  capacity : Nat
  consumeOnRead : Bool
deriving DecidableEq, Repr

/-- Modelled from the spec: `push(epoch)` of section 4.5 — if
count == capacity: if consume-on-read mode, evict the single oldest
entry then insert; else fail with QueueFull; otherwise insert at the
end. -/
def EpochQueue.push {α : Type} (q : EpochQueue α) (e : α) :
    Except QueueError (EpochQueue α) :=
  if q.items.length = q.capacity then
    if q.consumeOnRead then .ok { q with items := q.items.tail ++ [e] }
    else .error .QueueFull
  else .ok { q with items := q.items ++ [e] }

/-- Push a list of epochs in order, stopping at the first error. -/
def EpochQueue.pushAll {α : Type} (q : EpochQueue α) :
    List α → Except QueueError (EpochQueue α)
  | [] => .ok q
  | e :: es =>
      match q.push e with
      | .ok q2 => q2.pushAll es
      | .error err => .error err

/-- Modelled from the spec: the propagation policy of section 7 — on
QueueFull the triggering epoch is dropped and the session continues, so
the queue state is unchanged on error. -/
def EpochQueue.pushDrop {α : Type} (q : EpochQueue α) (e : α) : EpochQueue α :=
  match q.push e with
  | .ok q2 => q2
  | .error _ => q

/-- Modelled from the spec: a fresh empty queue with the configured
capacity and consume-on-read flag. -/
def EpochQueue.empty (α : Type) (capacity : Nat) (consumeOnRead : Bool) :
    EpochQueue α :=
  ⟨[], capacity, consumeOnRead⟩

/-! ## Epoch Extractor span and decimation (spec sections 4.3, 6, 8) -/

/-- Modelled from the spec: section 4.3 and the section-8 scenario — the
epoch span for a window `(t_pre, t_post)` in seconds at sampling rate
`sfreq` around an event at sample `event` is the half-open sample
interval `[event + t_pre*sfreq, event + t_post*sfreq)`. -/
def epochSpan (tmin tmax sfreq : ℚ) (event : Int) : Int × Int :=
  (event + ⌊tmin * sfreq⌋, event + ⌊tmax * sfreq⌋)

/-- The list of sample indices in the half-open span `[start, stop)`. -/
def spanSamples (start stop : Int) : List Int :=
  (List.range (stop - start).toNat).map (fun i => start + i)

/-- Modelled from the spec: decimation of section 4.3 — keep every Nth
sample, starting at the first sample of the span (`i` counts the
position within the span). -/
def decimateAux {α : Type} (n : Nat) : Nat → List α → List α
  | _, [] => []
  | i, x :: xs => (if i % n = 0 then [x] else []) ++ decimateAux n (i + 1) xs

/-- Modelled from the spec: apply decimation from the first sample. -/
def decimate {α : Type} (n : Nat) (xs : List α) : List α :=
  decimateAux n 0 xs

/-! ## EDF reader: `RawEDF._read_segment` (src/mne/fiff/edf/edf.py)

The byte-level file decoding is abstracted into `decodedData`, the matrix
(one row per channel) that decoding the whole file yields; the argument
handling of `_read_segment` (lines 138-154 of edf.py) is embedded
verbatim and the extraction returns the requested columns of that
matrix. -/

/-- State of a `RawEDF` object relevant to `_read_segment`:
`info['nchan']`, `self.last_samp`, `info['sfreq']`, and the decoded
sample matrix of the underlying file (one row per channel). -/
structure RawEDF where
  nchan : Nat
  last_samp : Nat
  sfreq : ℚ
  decodedData : List (List ℚ)

/-- The possible outcomes of `_read_segment`: the bare scalar pair
`(666, 666)` from the special-cased early return at line 141 of edf.py,
a raised error, or a `(data, times)` pair. -/
inductive SegResult
  | placeholder (a b : Int)
  | err (msg : String)
  | ok (data : List (List ℚ)) (times : List ℚ)

/-- Columns `[start, stop)` of one channel row. -/
def sliceRow (start stop : Nat) (row : List ℚ) : List ℚ :=
  (row.drop start).take (stop - start)

/-- The body of `_read_segment` after `sel` has been resolved, from
edf.py lines 144-213: `stop` defaults to `last_samp + 1` and is clamped
to it when larger; `start >= stop` raises `No data in this range`;
otherwise the selected channel rows restricted to columns
`[start, stop)` are returned together with
`times = arange(start, stop) / sfreq`. -/
def readSegmentMain (raw : RawEDF) (start : Int) (stopArg : Option Int)
    (sel : List Nat) : SegResult :=
  let stop : Int :=
    match stopArg with
    | none => (raw.last_samp : Int) + 1
    | some s => if s > (raw.last_samp : Int) + 1 then (raw.last_samp : Int) + 1 else s
  if start ≥ stop then .err "No data in this range"
  else
    .ok (sel.map (fun c => sliceRow start.toNat stop.toNat (raw.decodedData.getD c [])))
      ((List.range (stop - start).toNat).map
        (fun n : Nat => (((start + (n : Int)) : Int) : ℚ) / raw.sfreq))

/-- `RawEDF._read_segment(start, stop, sel)` from edf.py lines 107-213:
`sel = None` defaults to all channels; otherwise, when
`len(sel) == 1 and sel[0] == 0 and start == 0 and stop == 1`, the
function returns the scalar pair `(666, 666)` (line 141). -/
def RawEDF._read_segment (raw : RawEDF) (start : Int) (stopArg : Option Int)
    (selArg : Option (List Nat)) : SegResult :=
  match selArg with
  | none => readSegmentMain raw start stopArg (List.range raw.nchan)
  | some sel =>
      if sel.length = 1 ∧ sel.getD 0 0 = 0 ∧ start = 0 ∧ stopArg = some 1 then
        .placeholder 666 666
      else readSegmentMain raw start stopArg sel

/-! ## EDF reader construction checks (edf.py `RawEDF.__init__`,
`_get_edf_info`) -/

/-- The construction-time configuration facts that the checks in
`RawEDF.__init__` and `_get_edf_info` inspect: whether
`isinstance(n_eeg, int)` holds, the file subtype string, and whether the
annotation file exists. -/
structure EdfConfig where
  nEegIsInt : Bool
  subtype : String
  annotExists : Bool

/-- The supported subtypes of edf.py line 289. -/
def supportedSubtypes : List String := ["EDF+C", "EDF+D", "24BIT"]

/-- The raising checks of `_get_edf_info` (edf.py lines 288-292 and
395-397): an unsupported subtype raises, and a non-24BIT file with a
missing annotation file raises. -/
def getEdfInfoChecks (cfg : EdfConfig) : Except String Unit :=
  if cfg.subtype ∉ supportedSubtypes then
    .error "Filetype must be either EDF+C, EDF+D, or 24BIT"
  else if cfg.subtype ≠ "24BIT" ∧ ¬cfg.annotExists then
    .error "Missing required annotation file."
  else .ok ()

/-- The validation performed by `RawEDF.__init__` (edf.py lines 63-71)
before reading data. Line 66-67 reads
`if not isinstance(n_eeg, int): ValueError('Must be an integer number.')`
— the `ValueError` is constructed and immediately discarded (there is no
`raise`), so that check can never fail; construction then proceeds into
`_get_edf_info`. -/
def rawEDFInitChecks (cfg : EdfConfig) : Except String Unit :=
  let _discardedValueError : Option String :=
    if ¬cfg.nEegIsInt then some "Must be an integer number." else none
  getEdfInfoChecks cfg

/-! ## 24-bit decoding and stimulus masking (edf.py lines 172-198) -/

/-- The 24BIT branch of `_read_segment`: three consecutive bytes are
combined as `b0 + (b1 << 8) + (b2 << 16)` and values at or above `2^23`
have `2^24` subtracted (little-endian signed 24-bit decoding). -/
def decode24 (b0 b1 b2 : Nat) : Int :=
  let v : Int := (b0 : Int) + (b1 : Int) * 2 ^ 8 + (b2 : Int) * 2 ^ 16
  if v ≥ 2 ^ 23 then v - 2 ^ 24 else v

/-- The stimulus-channel masking of edf.py lines 195-198:
`np.bitwise_and(stim, 255)` on the integer-converted last row. -/
def maskStim (x : Int) : Int := Int.land x 255

/-! ## `Scaler.transform` (src/mne/realtime/classifier.py lines 63-78)

`transform` takes `X = epochs.get_data()` of shape
(n_epochs, n_channels, n_times) and, for each pick group in
`picks_list`, executes `X[:, pick_one, :] -= X[:, pick_one, :].mean(axis=1)[:, None, :]`
— an in-place subtraction of the mean over the picked channels. The
pick groups (computed by `pick_types` from `self.info`, outside this
file's sources) are a parameter of the model, and the in-place update is
embedded as state passing: the returned matrix is the buffer the caller
holds after the call. -/

/-- `X[e, picks, :].mean(axis=0)` at time `t` for one epoch: the mean
over the picked channels of the values at column `t`. -/
def pickMean (picks : List Nat) (epoch : List (List ℚ)) (t : Nat) : ℚ :=
  (picks.map (fun c => (epoch.getD c []).getD t 0)).sum / (picks.length : ℚ)

/-- Subtract the per-time pick-group mean from one (picked) channel row;
`t` is the current column index. -/
def subMeanRow (picks : List Nat) (epoch : List (List ℚ)) : Nat → List ℚ → List ℚ
  | _, [] => []
  | t, v :: vs => (v - pickMean picks epoch t) :: subMeanRow picks epoch (t + 1) vs

/-- Walk the channel rows of one epoch; rows whose index is in the pick
group get the mean subtracted, other rows are untouched (`c` is the
current channel index). -/
def demeanRows (picks : List Nat) (epoch : List (List ℚ)) : Nat → List (List ℚ) → List (List ℚ)
  | _, [] => []
  | c, row :: rest =>
      (if c ∈ picks then subMeanRow picks epoch 0 row else row)
        :: demeanRows picks epoch (c + 1) rest

/-- One `X[:, pick_one, :] -= ch_mean` step applied to one epoch. -/
def demeanEpoch (picks : List Nat) (epoch : List (List ℚ)) : List (List ℚ) :=
  demeanRows picks epoch 0 epoch

/-- The `Scaler` state: `self.info` only feeds `pick_types`, so the
model carries the resulting `picks_list` directly. -/
structure Scaler where
  picksList : List (List Nat)

/-- `Scaler.transform` (classifier.py lines 63-78): the sequential
in-place loop `for pick_one in picks_list: X[:, pick_one, :] -= ch_mean`,
returning the caller's (now updated) buffer. -/
def Scaler.transform (s : Scaler) (X : List (List (List ℚ))) : List (List (List ℚ)) :=
  s.picksList.foldl (fun acc picks => acc.map (demeanEpoch picks)) X

/-! ## `ConcatenateChannels` (classifier.py lines 81-143) -/

/-- The `ConcatenateChannels` state: only the `info` attribute set at
construction (default `None`); nothing else is ever stored on the
instance. -/
structure ConcatenateChannels where
  info : Option Unit
deriving DecidableEq

/-- `ConcatenateChannels.fit` (classifier.py lines 86-105): validates
that the input is an ndarray (always true for the typed input of this
model), binds `np.atleast_3d(epochs_data)` to a local that is then
dropped, and returns `self` unchanged. -/
def ConcatenateChannels.fit (c : ConcatenateChannels)
    (_epochs_data : List (List (List ℚ))) (_y : List Int) : ConcatenateChannels :=
  c

/-- `ConcatenateChannels.transform` (classifier.py lines 107-124):
`epochs_data.reshape(n_epochs, n_channels*n_time)` — in C order this
concatenates each epoch's channel rows in order. -/
def ConcatenateChannels.transform (_c : ConcatenateChannels)
    (epochs_data : List (List (List ℚ))) : List (List ℚ) :=
  epochs_data.map List.flatten

/-- `ConcatenateChannels.fit_transform` (classifier.py lines 126-143):
`self.fit(epochs_data, y).transform(epochs_data)`. -/
def ConcatenateChannels.fit_transform (c : ConcatenateChannels)
    (epochs_data : List (List (List ℚ))) (y : List Int) : List (List ℚ) :=
  (c.fit epochs_data y).transform epochs_data

/-! ## `find_outlier_adaptive` (src/mne/preprocessing/bads.py lines 12-44)

The z-scoring itself (`scipy.stats.zscore`, external to the sources) is
a parameter `detect` mapping the absolute values and the current mask to
the boolean array `np.abs(zscore(this_x)) > threshold`. The loop
structure, mask accumulation, break condition, and the final
`np.nonzero(this_x.mask)` are embedded from the source. `this_x` only
acquires a `.mask` attribute when the loop body wraps it in
`np.ma.masked_array`; if the body never runs the final `this_x.mask`
access raises `AttributeError`, modelled as `none`. -/

/-- `np.nonzero(mask)[0]`: the indices carrying `true`, in order; `i` is
the index of the head of the remaining list. -/
def nonzeroAux : Nat → List Bool → List Nat
  | _, [] => []
  | i, b :: bs => (if b then [i] else []) ++ nonzeroAux (i + 1) bs

/-- `np.nonzero(mask)[0]` from index 0. -/
def nonzero (m : List Bool) : List Nat := nonzeroAux 0 m

/-- The `while i_iter < max_iter` loop of `find_outlier_adaptive`.
Arguments: remaining fuel (`max_iter - i_iter`), the current mask
`my_mask`, and the mask currently attached to `this_x` (none before the
first wrap). Returns the attached mask at exit and the number of loop
iterations executed. Each iteration attaches the current mask, computes
`local_bad`, accumulates it into the mask with elementwise or
(`np.max([my_mask, local_bad], 0)`), and breaks when no entry of
`local_bad` is set. -/
def outlierLoop (detect : List ℚ → List Bool → List Bool) (x : List ℚ) :
    Nat → List Bool → Option (List Bool) → Option (List Bool) × Nat
  | 0, _, attached => (attached, 0)
  | fuel + 1, mask, _ =>
      let localBad := detect x mask
      let mask2 := List.zipWith (fun a b => a || b) mask localBad
      if localBad.any (fun b => b) then
        let r := outlierLoop detect x fuel mask2 (some mask)
        (r.1, r.2 + 1)
      else (some mask, 1)

/-- `find_outlier_adaptive(X, threshold, max_iter)` (bads.py lines
12-44), with the z-score comparison abstracted into `detect`. Returns
`(bad_idx, i_iter)` where `bad_idx = np.nonzero(this_x.mask)[0]` is
`none` when the `.mask` access raises `AttributeError`, and the second
component counts executed loop iterations. -/
def find_outlier_adaptive (detect : List ℚ → List Bool → List Bool)
    (X : List ℚ) (max_iter : Nat) : Option (List Nat) × Nat :=
  let this_x := X.map (fun v => |v|)
  let my_mask := X.map (fun _ => false)
  let r := outlierLoop detect this_x max_iter my_mask none
  (r.1.map nonzero, r.2)

/-- A concrete five-sample, one-channel `RawEDF` instance used for the
concrete evaluations: `last_samp = 4`, `sfreq = 1`. -/
def edfSample : RawEDF :=
  { nchan := 1, last_samp := 4, sfreq := 1, decodedData := [[0, 1, 2, 3, 4]] }

/-- A detector instance that never flags an outlier, used for concrete
evaluations of `find_outlier_adaptive`. -/
def detectNone : List ℚ → List Bool → List Bool :=
  fun x _ => x.map (fun _ => false)

/-!
# Theorems
-/

/-! ## Helper lemmas for the Epoch Queue -/

theorem pushAll_append {α : Type} (as bs : List α) :
    ∀ q : EpochQueue α,
      q.pushAll (as ++ bs) =
        match q.pushAll as with
        | .ok q2 => q2.pushAll bs
        | .error err => .error err := by
  induction as with
  | nil => intro q; simp [EpochQueue.pushAll]
  | cons a as ih =>
      intro q
      simp only [List.cons_append, EpochQueue.pushAll]
      cases q.push a with
      | ok q2 => exact ih q2
      | error err => rfl

theorem pushAll_fill {α : Type} (es : List α) :
    ∀ q : EpochQueue α, q.items.length + es.length ≤ q.capacity →
      q.pushAll es = .ok ⟨q.items ++ es, q.capacity, q.consumeOnRead⟩ := by
  induction es with
  | nil => intro q _; simp [EpochQueue.pushAll]
  | cons e es ih =>
      intro q h
      have hne : q.items.length ≠ q.capacity := by
        simp only [List.length_cons] at h
        omega
      simp only [EpochQueue.pushAll, EpochQueue.push, if_neg hne]
      have := ih ⟨q.items ++ [e], q.capacity, q.consumeOnRead⟩
        (by simp only [List.length_append, List.length_singleton]
            simp only [List.length_cons] at h
            omega)
      simpa [List.append_assoc] using this

/-! ## C1 -/

/-- C1: for the trigger-channel sample sequence `[0,0,5,5,5,0,0,7,0]`
scanned with allow-listed codes {5, 7} under equality comparison, the
Event Detector emits exactly the two Trigger Events `(2, 5)` and
`(7, 7)`: only the first sample of a contiguous run of the same nonzero
value emits, and no other index emits. -/
theorem c1_trigger_scenario :
    detectTriggers [5, 7] [0, 0, 5, 5, 5, 0, 0, 7, 0] = [(2, 5), (7, 7)] := by
  decide

/-! ## C2 -/

/-- C2 (amended to capacity at least 1): pushing `N + 1` epochs into an
empty queue of capacity `N ≥ 1` in consume-on-read mode leaves exactly
the `N` youngest epochs, the oldest evicted; in non-consume mode the
first `N` pushes succeed and leave exactly those epochs, the `(N+1)`-th
push fails with `QueueFull`, and dropping the rejected epoch leaves the
queue state unchanged. -/
theorem c2_queue_capacity {α : Type} (N : Nat) (hN : 1 ≤ N) (front : List α)
    (hf : front.length = N) (e : α) :
    (EpochQueue.empty α N true).pushAll (front ++ [e]) =
        .ok ⟨(front ++ [e]).tail, N, true⟩ ∧
    ((front ++ [e]).tail).length = N ∧
    (EpochQueue.empty α N false).pushAll front = .ok ⟨front, N, false⟩ ∧
    (EpochQueue.mk front N false).push e = .error .QueueFull ∧
    (EpochQueue.mk front N false).pushDrop e = ⟨front, N, false⟩ := by
  obtain ⟨f, fr, rfl⟩ : ∃ f fr, front = f :: fr := by
    cases front with
    | nil => simp at hf; omega
    | cons f fr => exact ⟨f, fr, rfl⟩
  have hfill :
      (EpochQueue.empty α N true).pushAll (f :: fr) =
        .ok ⟨f :: fr, N, true⟩ := by
    have := pushAll_fill (f :: fr) (EpochQueue.empty α N true)
      (by simp [EpochQueue.empty, hf])
    simpa [EpochQueue.empty] using this
  refine ⟨?_, ?_, ?_, ?_, ?_⟩
  · rw [pushAll_append, hfill]
    simp only [EpochQueue.pushAll, EpochQueue.push, hf, if_pos rfl]
    simp [EpochQueue.pushAll]
  · simp only [List.length_cons] at hf
    simp [List.length_append]
    omega
  · have := pushAll_fill (f :: fr) (EpochQueue.empty α N false)
      (by simp [EpochQueue.empty, hf])
    simpa [EpochQueue.empty] using this
  · simp [EpochQueue.push, hf]
  · simp [EpochQueue.pushDrop, EpochQueue.push, hf]

/-- C2 witness: the amended statement instantiated at capacity 1,
epochs `[1, 2]` of natural numbers. -/
theorem c2_queue_capacity_witness :
    (1 ≤ 1 ∧ ([(1 : Nat)]).length = 1) ∧
    ((EpochQueue.empty Nat 1 true).pushAll ([1] ++ [2]) =
        .ok ⟨([1] ++ [2]).tail, 1, true⟩ ∧
      (([1] ++ [2]).tail).length = 1 ∧
      (EpochQueue.empty Nat 1 false).pushAll [1] = .ok ⟨[1], 1, false⟩ ∧
      (EpochQueue.mk [1] 1 false).push 2 = .error .QueueFull ∧
      (EpochQueue.mk [1] 1 false).pushDrop 2 = ⟨[1], 1, false⟩) :=
  ⟨⟨by decide, by decide⟩, c2_queue_capacity 1 (by decide) [1] (by decide) 2⟩

/-- C2 counterexample: at capacity `N = 0` in consume-on-read mode,
pushing `N + 1 = 1` epoch leaves 1 epoch, not the `N = 0` epochs the
claim requires (the spec contract evicts the single oldest entry of the
empty queue — nothing — and then inserts). -/
theorem c2_counterexample :
    (EpochQueue.empty Nat 0 true).pushAll [42] =
        .ok { items := [42], capacity := 0, consumeOnRead := true } ∧
    ¬ (({ items := [42], capacity := 0, consumeOnRead := true } :
          EpochQueue Nat).items.length = 0) :=
  ⟨rfl, by decide⟩

/-! ## C5 -/

/-- C5: with window `(-0.2, 0.5)` at 10 samples per second and an event
at sample 100, the extracted span is the half-open interval
`[98, 105)` — the 7 samples 98..104 — and decimation by 2 starting at
the first sample keeps `[98, 100, 102, 104]`, i.e. exactly 4 output
samples per channel. -/
theorem c5_span_scenario :
    epochSpan (-0.2) 0.5 10 100 = (98, 105) ∧
    spanSamples 98 105 = [98, 99, 100, 101, 102, 103, 104] ∧
    decimate 2 (spanSamples 98 105) = [98, 100, 102, 104] ∧
    (decimate 2 (spanSamples 98 105)).length = 4 := by
  refine ⟨?_, by decide, by decide, by decide⟩
  unfold epochSpan
  norm_num

/-! ## C3 -/

/-- C3: contrary to the claim (and to the docstring of
`RawEDF._read_segment`, which promises a channels x samples data matrix
and a times vector), the call with `sel = [0]`, `start = 0`, `stop = 1`
returns the bare scalar pair `(666, 666)` — the special-cased early
return at edf.py line 141. -/
theorem c3_placeholder_return :
    edfSample._read_segment 0 (some 1) (some [0]) = .placeholder 666 666 := rfl

/-! ## C4 -/

/-- C4 (amended): a read whose `stop` exceeds `last_samp + 1` does not
fail; `_read_segment` silently clamps the requested span to the
available data — the result equals the read with `stop = last_samp + 1`
and is an `ok` block whose times vector has `last_samp + 1 - start`
entries. -/
theorem c4_clamps_to_available (raw : RawEDF) (start stop : Int)
    (h1 : start ≤ (raw.last_samp : Int)) (h2 : (raw.last_samp : Int) + 1 < stop) :
    ∃ data times,
      raw._read_segment start (some stop) none = .ok data times ∧
      raw._read_segment start (some stop) none =
        raw._read_segment start (some ((raw.last_samp : Int) + 1)) none ∧
      times.length = ((raw.last_samp : Int) + 1 - start).toNat := by
  have hne : ¬ start ≥ (raw.last_samp : Int) + 1 := by omega
  have hid : ¬ ((raw.last_samp : Int) + 1 > (raw.last_samp : Int) + 1) := by omega
  simp only [RawEDF._read_segment, readSegmentMain, if_pos h2, if_neg hne, if_neg hid]
  exact ⟨_, _, rfl, trivial, by rw [List.length_map, List.length_range]⟩

/-- C4 witness: the amended statement at the concrete five-sample file,
`start = 0`, requested `stop = 10`. -/
theorem c4_witness :
    ((0 : Int) ≤ (edfSample.last_samp : Int) ∧ (edfSample.last_samp : Int) + 1 < 10) ∧
    (∃ data times,
      edfSample._read_segment 0 (some 10) none = .ok data times ∧
      edfSample._read_segment 0 (some 10) none =
        edfSample._read_segment 0 (some ((edfSample.last_samp : Int) + 1)) none ∧
      times.length = ((edfSample.last_samp : Int) + 1 - 0).toNat) :=
  ⟨⟨by norm_num [edfSample], by norm_num [edfSample]⟩,
    c4_clamps_to_available edfSample 0 10 (by norm_num [edfSample])
      (by norm_num [edfSample])⟩

/-- C4 counterexample: for the concrete five-sample file
(`last_samp = 4`), reading `[0, 10)` — whose `stop` exceeds the latest
written sample index — returns the five available samples instead of
failing, refuting the claimed `RangeUnavailable` error. -/
theorem c4_counterexample :
    edfSample._read_segment 0 (some 10) none = .ok [[0, 1, 2, 3, 4]] [0, 1, 2, 3, 4] := by
  simp only [edfSample, RawEDF._read_segment, readSegmentMain]
  norm_num [List.range_succ]
  have h : Int.toNat 5 = 5 := rfl
  rw [h]
  constructor
  · norm_num [sliceRow]
  · simp [List.range_succ, List.flatMap]

/-! ## C6 -/

/-- C6: the wrong-typed channel-count check in `RawEDF.__init__`
(edf.py line 66-67) constructs `ValueError('Must be an integer number.')`
without raising it, so construction with a non-integer `n_eeg` and an
otherwise valid file proceeds without surfacing any error — contradicting
the intended fail-fast behaviour the constructed exception documents. -/
theorem c6_unraised_valueerror :
    rawEDFInitChecks { nEegIsInt := false, subtype := "24BIT", annotExists := true } =
      .ok () := rfl

/-! ## C9 -/

theorem ldiff_le_left (n m : Nat) : Nat.ldiff n m ≤ n := by
  apply Nat.le_of_testBit
  intro i h
  rw [Nat.testBit_ldiff] at h
  exact (Bool.and_eq_true_iff.mp h).1

theorem maskStim_bounds (x : Int) : 0 ≤ maskStim x ∧ maskStim x ≤ 255 := by
  unfold maskStim
  cases x with
  | ofNat m =>
      have h : Int.land (Int.ofNat m) 255 = Int.ofNat (m &&& 255) := rfl
      rw [h]
      exact ⟨Int.ofNat_nonneg _, Int.ofNat_le.mpr Nat.and_le_right⟩
  | negSucc m =>
      have h : Int.land (Int.negSucc m) 255 = Int.ofNat (Nat.ldiff 255 m) := rfl
      rw [h]
      exact ⟨Int.ofNat_nonneg _, Int.ofNat_le.mpr (ldiff_le_left 255 m)⟩

/-- C9: in the 24BIT branch, the decoded raw sample built from bytes
`(b0, b1, b2)` is the unique integer in `[-2^23, 2^23)` congruent to
`b0 + 256*b1 + 65536*b2` modulo `2^24`, and every value of the returned
stimulus channel is in `[0, 255]` because it is bitwise-ANDed with the
mask 255. -/
theorem c9_decode24_and_mask (b0 b1 b2 : Nat)
    (h0 : b0 < 256) (h1 : b1 < 256) (h2 : b2 < 256) :
    (-(2 ^ 23) ≤ decode24 b0 b1 b2 ∧ decode24 b0 b1 b2 < 2 ^ 23) ∧
    decode24 b0 b1 b2 % 2 ^ 24 =
      ((b0 : Int) + (b1 : Int) * 2 ^ 8 + (b2 : Int) * 2 ^ 16) % 2 ^ 24 ∧
    (∀ y : Int, -(2 ^ 23) ≤ y → y < 2 ^ 23 →
      y % 2 ^ 24 = ((b0 : Int) + (b1 : Int) * 2 ^ 8 + (b2 : Int) * 2 ^ 16) % 2 ^ 24 →
      y = decode24 b0 b1 b2) ∧
    (∀ x : Int, 0 ≤ maskStim x ∧ maskStim x ≤ 255) := by
  have e8 : (2 : Int) ^ 8 = 256 := by norm_num
  have e16 : (2 : Int) ^ 16 = 65536 := by norm_num
  have e23 : (2 : Int) ^ 23 = 8388608 := by norm_num
  have e24 : (2 : Int) ^ 24 = 16777216 := by norm_num
  unfold decode24
  simp only [e8, e16, e23, e24]
  refine ⟨?_, ?_, ?_, fun x => maskStim_bounds x⟩
  · constructor <;> (split <;> omega)
  · split <;> omega
  · intro y hy1 hy2 hmod
    revert hmod
    split <;> (intro hmod; omega)

/-- C9 witness: the statement at the all-ones byte triple
`(255, 255, 255)`, which decodes to −1. -/
theorem c9_witness :
    ((255 : Nat) < 256 ∧ (255 : Nat) < 256 ∧ (255 : Nat) < 256) ∧
    ((-(2 ^ 23) ≤ decode24 255 255 255 ∧ decode24 255 255 255 < 2 ^ 23) ∧
      decode24 255 255 255 % 2 ^ 24 =
        ((255 : Int) + (255 : Int) * 2 ^ 8 + (255 : Int) * 2 ^ 16) % 2 ^ 24 ∧
      (∀ y : Int, -(2 ^ 23) ≤ y → y < 2 ^ 23 →
        y % 2 ^ 24 = ((255 : Int) + (255 : Int) * 2 ^ 8 + (255 : Int) * 2 ^ 16) % 2 ^ 24 →
        y = decode24 255 255 255) ∧
      (∀ x : Int, 0 ≤ maskStim x ∧ maskStim x ≤ 255)) :=
  ⟨⟨by decide, by decide, by decide⟩,
    c9_decode24_and_mask 255 255 255 (by decide) (by decide) (by decide)⟩

/-! ## C7 -/

theorem demeanRows_getD (picks : List Nat) (ep : List (List ℚ)) :
    ∀ (rows : List (List ℚ)) (i j : Nat), (i + j) ∉ picks →
      (demeanRows picks ep i rows).getD j [] = rows.getD j [] := by
  intro rows
  induction rows with
  | nil => intro i j _; rfl
  | cons row rest ih =>
      intro i j h
      cases j with
      | zero =>
          simp only [demeanRows, List.getD_cons_zero]
          rw [if_neg]
          simpa using h
      | succ j =>
          simp only [demeanRows, List.getD_cons_succ]
          apply ih (i + 1) j
          have hg : i + 1 + j = i + (j + 1) := by omega
          rw [hg]
          exact h

theorem getD_map_rows (f : List (List ℚ) → List (List ℚ)) (hf : f [] = [])
    (X : List (List (List ℚ))) : ∀ e : Nat, (X.map f).getD e [] = f (X.getD e []) := by
  induction X with
  | nil => intro e; simp [hf]
  | cons x xs ih =>
      intro e
      cases e with
      | zero => rfl
      | succ e =>
          simp only [List.map_cons, List.getD_cons_succ]
          exact ih e

theorem scaler_foldl_frame (c : Nat) :
    ∀ (groups : List (List Nat)) (X : List (List (List ℚ))) (e : Nat),
      (∀ picks ∈ groups, c ∉ picks) →
      ((groups.foldl (fun acc picks => acc.map (demeanEpoch picks)) X).getD e []).getD c []
        = ((X.getD e []).getD c []) := by
  intro groups
  induction groups with
  | nil => intro X e _; rfl
  | cons g gs ih =>
      intro X e h
      simp only [List.foldl_cons]
      rw [ih (X.map (demeanEpoch g)) e (fun p hp => h p (List.mem_cons_of_mem _ hp))]
      rw [getD_map_rows (demeanEpoch g) rfl X e]
      simp only [demeanEpoch]
      exact demeanRows_getD g (X.getD e []) (X.getD e []) 0 c
        (by simpa using h g (List.mem_cons_self g gs))

/-- C7 (amended): `Scaler.transform` subtracts the per-group channel
mean from the picked channels of the data array in place and returns
that same mutated buffer, so the consumer's array is changed; the frame
guarantee that does hold is that every channel row lying outside all
pick groups is left unchanged. -/
theorem c7_untouched_channels_frame (s : Scaler) (X : List (List (List ℚ)))
    (e c : Nat) (hc : ∀ picks ∈ s.picksList, c ∉ picks) :
    ((s.transform X).getD e []).getD c [] = ((X.getD e []).getD c []) := by
  unfold Scaler.transform
  exact scaler_foldl_frame c s.picksList X e hc

/-- C7 witness: the frame statement at one epoch with two channels,
pick group `[0]`, inspecting the unpicked channel 1. -/
theorem c7_witness :
    (∀ picks ∈ (Scaler.mk [[0]]).picksList, 1 ∉ picks) ∧
    (((Scaler.mk [[0]]).transform [[[(1 : ℚ)], [2]]]).getD 0 []).getD 1 [] =
      ((([[[(1 : ℚ)], [2]]] : List (List (List ℚ))).getD 0 []).getD 1 []) :=
  ⟨by decide, c7_untouched_channels_frame (Scaler.mk [[0]]) [[[(1 : ℚ)], [2]]] 0 1 (by decide)⟩

/-- C7 counterexample: on a single epoch with one picked channel holding
the value 1, `Scaler.transform` returns a buffer whose sample data
differs from the input — the in-place `X[:, pick_one, :] -= ch_mean`
mutates the array the consumer passed in, refuting the claim that the
step never mutates it. -/
theorem c7_counterexample :
    (Scaler.mk [[0]]).transform [[[(1 : ℚ)]]] ≠ [[[(1 : ℚ)]]] := by
  simp [Scaler.transform, demeanEpoch, demeanRows, subMeanRow, pickMean]

/-! ## C8 -/

theorem outlierLoop_iters (detect : List ℚ → List Bool → List Bool) (x : List ℚ) :
    ∀ (fuel : Nat) (mask : List Bool) (att : Option (List Bool)),
      (outlierLoop detect x fuel mask att).2 ≤ fuel := by
  intro fuel
  induction fuel with
  | zero => intro mask att; simp [outlierLoop]
  | succ fuel ih =>
      intro mask att
      simp only [outlierLoop]
      split
      · exact Nat.succ_le_succ (ih _ _)
      · exact Nat.succ_le_succ (Nat.zero_le _)

theorem outlierLoop_attached (detect : List ℚ → List Bool → List Bool) (x : List ℚ)
    (hdet : ∀ m : List Bool, (detect x m).length = x.length) :
    ∀ (fuel : Nat) (mask : List Bool) (att : Option (List Bool)),
      mask.length = x.length →
      (att = none → 1 ≤ fuel) →
      (∀ a, att = some a → a.length = x.length) →
      ∃ m, (outlierLoop detect x fuel mask att).1 = some m ∧ m.length = x.length := by
  intro fuel
  induction fuel with
  | zero =>
      intro mask att _ hn ha
      cases att with
      | none => exact absurd (hn rfl) (by omega)
      | some a => exact ⟨a, rfl, ha a rfl⟩
  | succ fuel ih =>
      intro mask att hm _ _
      simp only [outlierLoop]
      split
      · have hm2 : (List.zipWith (fun a b => a || b) mask (detect x mask)).length = x.length := by
          rw [List.length_zipWith, hdet mask, hm]
          simp
        exact ih _ (some mask) hm2 (fun hAbs => Option.noConfusion hAbs)
          (fun a h2 => by cases h2; exact hm)
      · exact ⟨mask, rfl, hm⟩

theorem nonzeroAux_lt : ∀ (m : List Bool) (i j : Nat), j ∈ nonzeroAux i m → j < i + m.length := by
  intro m
  induction m with
  | nil => intro i j h; simp [nonzeroAux] at h
  | cons b bs ih =>
      intro i j h
      simp only [nonzeroAux, List.mem_append] at h
      rcases h with h | h
      · by_cases hb : b
        · rw [if_pos hb] at h
          simp at h
          simp [List.length_cons]
          omega
        · rw [if_neg hb] at h
          simp at h
      · have := ih (i + 1) j h
        simp only [List.length_cons]
        omega

/-- C8 (amended to `max_iter ≥ 1`): for every finite input and every
length-preserving detection step, `find_outlier_adaptive` executes at
most `max_iter` loop iterations and returns a `bad_idx` list whose
entries are all valid indices into `X`. (At `max_iter = 0` the loop
body never runs and the final `this_x.mask` access fails instead —
see the counterexample.) -/
theorem c8_outlier_bounds (detect : List ℚ → List Bool → List Bool)
    (X : List ℚ) (max_iter : Nat)
    (hdet : ∀ x m, (detect x m).length = x.length) (hmi : 1 ≤ max_iter) :
    (find_outlier_adaptive detect X max_iter).2 ≤ max_iter ∧
    ∃ bad, (find_outlier_adaptive detect X max_iter).1 = some bad ∧
      ∀ i ∈ bad, i < X.length := by
  constructor
  · exact outlierLoop_iters detect (X.map fun v => |v|) max_iter (X.map fun _ => false) none
  · obtain ⟨m, hm1, hm2⟩ := outlierLoop_attached detect (X.map fun v => |v|)
      (fun mk => hdet (X.map fun v => |v|) mk) max_iter (X.map fun _ => false) none
      (by simp) (fun _ => hmi) (fun a ha => Option.noConfusion ha)
    refine ⟨nonzero m, ?_, ?_⟩
    · show (outlierLoop detect (X.map fun v => |v|) max_iter
          (X.map fun _ => false) none).1.map nonzero = some (nonzero m)
      rw [hm1]
      rfl
    · intro i hi
      have h1 := nonzeroAux_lt m 0 i hi
      have h2 : m.length = X.length := by
        rw [hm2, List.length_map]
      omega

/-- C8 witness: the amended statement with the never-flagging detector,
`X = [1]`, `max_iter = 1`. -/
theorem c8_witness :
    ((∀ x m, (detectNone x m).length = x.length) ∧ 1 ≤ 1) ∧
    ((find_outlier_adaptive detectNone [1] 1).2 ≤ 1 ∧
      ∃ bad, (find_outlier_adaptive detectNone [1] 1).1 = some bad ∧
        ∀ i ∈ bad, i < ([(1 : ℚ)]).length) :=
  ⟨⟨fun x m => by simp [detectNone], le_refl 1⟩,
    c8_outlier_bounds detectNone [1] 1 (fun x m => by simp [detectNone]) (le_refl 1)⟩

/-- C8 counterexample: at `max_iter = 0` the claim fails — the loop
body never executes, `this_x` is still a plain ndarray, and the final
`this_x.mask` access raises `AttributeError` (modelled as `none`)
instead of returning a set of valid indices. -/
theorem c8_counterexample :
    (find_outlier_adaptive detectNone [1] 0).1 = none := rfl

/-! ## C10 -/

/-- C10: `ConcatenateChannels.fit_transform` returns exactly
`transform`'s output, `fit` changes no observable state, and for a
rectangular (n_epochs, n_channels, n_times) input the result has one row
per epoch of length `n_channels * n_times`, each epoch's channels
concatenated in order. -/
theorem c10_concatenate (c : ConcatenateChannels) (d : List (List (List ℚ)))
    (y : List Int) (nC nT : Nat)
    (hshape : ∀ ep ∈ d, ep.length = nC ∧ ∀ row ∈ ep, row.length = nT) :
    c.fit_transform d y = c.transform d ∧
    c.fit d y = c ∧
    c.transform d = d.map List.flatten ∧
    (c.transform d).length = d.length ∧
    (∀ r ∈ c.transform d, r.length = nC * nT) := by
  refine ⟨rfl, rfl, rfl, by simp [ConcatenateChannels.transform], ?_⟩
  intro r hr
  simp only [ConcatenateChannels.transform, List.mem_map] at hr
  obtain ⟨ep, hep, rfl⟩ := hr
  obtain ⟨hlen, hrow⟩ := hshape ep hep
  rw [List.length_flatten]
  have hrep : ep.map List.length = List.replicate nC nT := by
    refine List.eq_replicate_iff.mpr ⟨by simp [hlen], ?_⟩
    intro b hb
    simp only [List.mem_map] at hb
    obtain ⟨row, hrowmem, rfl⟩ := hb
    exact hrow row hrowmem
  rw [hrep, List.sum_replicate, smul_eq_mul]

/-- C10 witness: the statement at one epoch of shape 2 x 2. -/
theorem c10_witness :
    (∀ ep ∈ ([[[(1 : ℚ), 2], [3, 4]]] : List (List (List ℚ))),
      ep.length = 2 ∧ ∀ row ∈ ep, row.length = 2) ∧
    ((ConcatenateChannels.mk none).fit_transform [[[(1 : ℚ), 2], [3, 4]]] [] =
        (ConcatenateChannels.mk none).transform [[[(1 : ℚ), 2], [3, 4]]] ∧
      (ConcatenateChannels.mk none).fit [[[(1 : ℚ), 2], [3, 4]]] [] =
        ConcatenateChannels.mk none ∧
      (ConcatenateChannels.mk none).transform [[[(1 : ℚ), 2], [3, 4]]] =
        ([[[(1 : ℚ), 2], [3, 4]]] : List (List (List ℚ))).map List.flatten ∧
      ((ConcatenateChannels.mk none).transform [[[(1 : ℚ), 2], [3, 4]]]).length =
        ([[[(1 : ℚ), 2], [3, 4]]] : List (List (List ℚ))).length ∧
      (∀ r ∈ (ConcatenateChannels.mk none).transform [[[(1 : ℚ), 2], [3, 4]]],
        r.length = 2 * 2)) :=
  ⟨by simp, c10_concatenate (ConcatenateChannels.mk none) [[[(1 : ℚ), 2], [3, 4]]] [] 2 2 (by simp)⟩

end MneSpec
